import Mathlib

/-!
Shallow embedding of the `md_feed` market-data cache and polling feed
(`src/md_feed/cache.py`, `src/md_feed/feed.py`, `src/md_feed/facade.py`).

Modelling conventions:
* A pandas `DataFrame` of candles is a `List Row`: each `Row` carries the
  index timestamp (`ts : Int`, an abstract instant; the retention window
  `maxPeriod` is measured in the same units) and the value columns
  (Open/High/Low/Close/Volume) bundled as `Vals`.
* `KlineCache._data` is a total lookup `String → Option (List Row)`;
  a missing ticker is `none` (Python `ticker not in self._data`).
* `pd.Timestamp.now()` is a parameter `now : Int` passed to each call.
* `new_candles` may be Python `None`; the argument is therefore an
  `Option (List Row)`, with `none` embedding `None`.
* `df.sort_index()` is `List.insertionSort Row.le` (a comparison sort by
  timestamp; on distinct timestamps every correct sort agrees).
* `df[df.index >= cutoff]` is `List.filter (cutoff ≤ ·.ts)`.
-/

/-- The value columns of one candle row (Open, High, Low, Close, Volume). -/
structure Vals where
  o : Int
  hi : Int
  lo : Int
  c : Int
  v : Int
deriving DecidableEq

/-- One row of a candle DataFrame: index timestamp plus value columns. -/
structure Row where
  ts : Int
  vals : Vals
deriving DecidableEq

/-- Default row used for positional access that the code guards by length. -/
def dRow : Row := ⟨0, ⟨0, 0, 0, 0, 0⟩⟩

/-- Order on rows by index timestamp (what `sort_index` sorts by). -/
def Row.le (a b : Row) : Prop := a.ts ≤ b.ts

/-- Strict order on rows by timestamp: adjacent-distinct and ascending. -/
def Row.lt (a b : Row) : Prop := a.ts < b.ts

instance : DecidableRel Row.le := fun a b => inferInstanceAs (Decidable (a.ts ≤ b.ts))

instance : DecidableRel Row.lt := fun a b => inferInstanceAs (Decidable (a.ts < b.ts))

instance : IsTotal Row Row.le := ⟨fun a b => Int.le_total a.ts b.ts⟩

instance : IsTrans Row Row.le := ⟨fun _ _ _ hab hbc => Int.le_trans hab hbc⟩

/-- `KlineCache` state (`cache.py`): per-ticker DataFrame plus the
retention window `_max_period` (default 180 days). -/
structure KlineCache where
  data : String → Option (List Row)
  maxPeriod : Int

/-- A fresh `KlineCache()` with the given retention window. -/
def KlineCache.mk0 (p : Int) : KlineCache := ⟨fun _ => none, p⟩

/-- `self._data[ticker] = df`. -/
def KlineCache.setData (c : KlineCache) (ticker : String) (df : List Row) : KlineCache :=
  ⟨fun s => if s = ticker then some df else c.data s, c.maxPeriod⟩

/-- The body of the two upsert blocks in `KlineCache.update`:
if the row's timestamp is already an index label, `existing.loc[idx] = row`
(pandas label assignment writes every row carrying that label); otherwise
`existing = pd.concat([existing, row])`. -/
def upsertRow (df : List Row) (r : Row) : List Row :=
  if r.ts ∈ df.map Row.ts then
    df.map (fun x => if x.ts = r.ts then ⟨x.ts, r.vals⟩ else x)
  else df ++ [r]

/-- `KlineCache._evict_old`: drop rows with timestamp before
`now - self._max_period`; no-op when the ticker is absent or its frame
is empty. -/
def KlineCache.evict_old (c : KlineCache) (now : Int) (ticker : String) : KlineCache :=
  match c.data ticker with
  | none => c
  | some df =>
    if df.isEmpty then c
    else c.setData ticker (df.filter (fun r => now - c.maxPeriod ≤ r.ts))

/-- The merge step of `KlineCache.update` for a non-empty batch against an
existing frame: with at least two rows, upsert the second-to-last (the
just-closed candle) then the last (the open candle); with one row, upsert
it alone. -/
def mergeBatch (existing : List Row) (l : List Row) : List Row :=
  if 2 ≤ l.length then
    upsertRow (upsertRow existing (l.getD (l.length - 2) dRow)) (l.getD (l.length - 1) dRow)
  else
    upsertRow existing (l.getD (l.length - 1) dRow)

/-- `KlineCache.update` (`cache.py` lines 13-73). Returns the Python pair
(return value, post-state). `none` embeds `new_candles is None`; the
first-load branch stores `new_candles.copy()` verbatim (no sorting or
dedup) and returns `True`; the merge branch upserts the last two rows
(respectively the single row), re-sorts, stores, evicts and returns
`True`. -/
def KlineCache.update (c : KlineCache) (now : Int) (ticker : String)
    (newCandles : Option (List Row)) : Bool × KlineCache :=
  match newCandles with
  | none => (false, c)
  | some l =>
    if l.isEmpty then (false, c)
    else
      match c.data ticker with
      | none => (true, (c.setData ticker l).evict_old now ticker)
      | some existing =>
        (true, ((c.setData ticker
          (List.insertionSort Row.le (mergeBatch existing l))).evict_old now ticker))

/-- `KlineCache.get`: value-level view (`self._data.get(ticker)`).
Aliasing behaviour of the returned object is modelled separately by
`PtrCache`. -/
def KlineCache.get (c : KlineCache) (ticker : String) : Option (List Row) :=
  c.data ticker

/-- A frame is sorted ascending with no duplicate timestamps. -/
def DfOk (df : List Row) : Prop := df.Pairwise Row.lt

instance (df : List Row) : Decidable (DfOk df) :=
  inferInstanceAs (Decidable (df.Pairwise Row.lt))

/-- All timestamps of a frame are distinct. -/
def TsNodup (df : List Row) : Prop := (df.map Row.ts).Nodup

/-- Every stored frame of the cache is sorted with distinct timestamps. -/
def CacheOk (c : KlineCache) : Prop := ∀ t df, c.data t = some df → DfOk df

/-! ### The polling feed (`src/md_feed/feed.py`) -/

/-- Observable actions of one pass of `MDFeed._poll_all`: the per-ticker
fetch, the `cache.update` call with its returned flag, and the handler
callback `on_kline_data(full_df, ticker)`. -/
inductive FeedEvent where
  | fetched (t : String)
  | updated (t : String) (changed : Bool)
  | callbackCalled (t : String) (df : List Row)
deriving DecidableEq

/-- `MDFeed._poll_all`: for each ticker in order, fetch the poll window,
feed it to `cache.update`, and when the cache reports a change and a
handler is set, pass `cache.get(ticker)` to the handler. The external
fetch is a parameter; events record what happened. -/
def MDFeed.pollAll (fetch : String → List Row) (now : Int) (handlerSet : Bool) :
    List String → KlineCache → KlineCache × List FeedEvent
  | [], c => (c, [])
  | t :: ts, c =>
    let r := c.update now t (some (fetch t))
    let evs2 :=
      if r.1 && handlerSet then
        match r.2.get t with
        | some full => [FeedEvent.callbackCalled t full]
        | none => []
      else []
    let rest := MDFeed.pollAll fetch now handlerSet ts r.2
    (rest.1, FeedEvent.fetched t :: FeedEvent.updated t r.1 :: (evs2 ++ rest.2))

/-- The mutable state of `MDFeed` that the `run` loop reads and writes. -/
structure MDFeedState where
  tickers : List String
  cache : KlineCache
  pollInterval : Int
  handlerSet : Bool
  lastPoll : Int

/-- One iteration of the `while` body of `MDFeed.run` (`feed.py` lines
67-75): read `now`; if `now - last_poll >= poll_interval`, run
`_poll_all` and set `last_poll = now`; otherwise only sleep. -/
def MDFeed.runIter (fetch : String → List Row) (now : Int) (s : MDFeedState) :
    MDFeedState × List FeedEvent :=
  if s.pollInterval ≤ now - s.lastPoll then
    let r := MDFeed.pollAll fetch now s.handlerSet s.tickers s.cache
    ({ s with cache := r.1, lastPoll := now }, r.2)
  else (s, [])

/-- `MDFeed.initialize` (`feed.py` lines 48-55): for each ticker fetch the
lookback window and feed it to the cache. The loop body has no exception
handling, so a raising fetch (`Except.error`) propagates at once. The
first component lists the tickers whose fetch was actually performed. -/
def MDFeed.initAll (fetch : String → Except Unit (List Row)) (now : Int) :
    List String → KlineCache → List String × Except Unit KlineCache
  | [], c => ([], Except.ok c)
  | t :: ts, c =>
    match fetch t with
    | Except.error e => ([t], Except.error e)
    | Except.ok df =>
      let rest := MDFeed.initAll fetch now ts (c.update now t (some df)).2
      (t :: rest.1, rest.2)

/-- `MDFeedFacade.initialize` (`facade.py` lines 44-57): run the feed's
initial load on a fresh default cache (180-day window), then report per
ticker `len(df) if df is not None else 0`. A raising fetch propagates. -/
def MDFeedFacade.initAll (fetch : String → Except Unit (List Row)) (now : Int)
    (tickers : List String) : Except Unit (List (String × Nat)) :=
  match MDFeed.initAll fetch now tickers (KlineCache.mk0 180) with
  | (_, Except.error e) => Except.error e
  | (_, Except.ok c) =>
    Except.ok (tickers.map fun t =>
      (t, match c.get t with
          | some df => df.length
          | none => 0))

/-! ### Reference-level view of `KlineCache.get`

`cache.py` line 77 is `return self._data.get(ticker)`: the caller receives
the stored `DataFrame` object itself, not a copy. To state what that
aliasing does we model object identity explicitly: the cache table maps a
ticker to the address of its frame, a heap maps addresses to frame
contents, and an in-place mutation by the caller is a heap write at the
address `get` handed out. -/

/-- Heap of DataFrame objects, addresses to contents. -/
structure PtrHeap where
  mem : Nat → Option (List Row)

/-- Write the object at address `a` in place (e.g. a pandas
`df.loc[...] = ...` performed by the caller on the returned frame). -/
def PtrHeap.write (h : PtrHeap) (a : Nat) (df : List Row) : PtrHeap :=
  ⟨fun x => if x = a then some df else h.mem x⟩

/-- `KlineCache._data` at reference level: ticker to frame address. -/
structure PtrCache where
  tbl : String → Option Nat

/-- `KlineCache.get` at reference level: `self._data.get(ticker)` returns
the stored reference itself — no copy is taken. -/
def PtrCache.get (c : PtrCache) (ticker : String) : Option Nat :=
  c.tbl ticker

/-- The cache's own view of a ticker's stored history: the contents at
the stored address. -/
def PtrCache.view (c : PtrCache) (h : PtrHeap) (ticker : String) : Option (List Row) :=
  match c.tbl ticker with
  | some a => h.mem a
  | none => none

/-! ### Sequences of `update` calls -/

/-- One recorded `update` call: the wall-clock instant, the ticker and
the batch argument. -/
abbrev UpdCall : Type := Int × String × Option (List Row)

/-- Apply one recorded call to the cache. -/
def stepCall (c : KlineCache) (p : UpdCall) : KlineCache :=
  (c.update p.1 p.2.1 p.2.2).2

/-- Run a sequence of `update` calls. -/
def runUpdates (c : KlineCache) (cs : List UpdCall) : KlineCache :=
  cs.foldl stepCall c

/-- A batch argument that is sorted ascending with distinct timestamps
(`none` and the empty frame are trivially so). -/
def BatchOk : Option (List Row) → Prop
  | none => True
  | some l => DfOk l

/-- Along the run, every call that is the first-ever load for its ticker
passes a sorted, duplicate-free batch. -/
def GoodRun : KlineCache → List UpdCall → Prop
  | _, [] => True
  | c, p :: ps => (c.data p.2.1 = none → BatchOk p.2.2) ∧ GoodRun (stepCall c p) ps

/-! ### Basic lemmas about the cache operations -/

theorem setData_data_self (c : KlineCache) (t : String) (df : List Row) :
    (c.setData t df).data t = some df := by
  simp [KlineCache.setData]

theorem setData_data_ne (c : KlineCache) (t s : String) (df : List Row) (h : s ≠ t) :
    (c.setData t df).data s = c.data s := by
  simp [KlineCache.setData, h]

theorem setData_maxPeriod (c : KlineCache) (t : String) (df : List Row) :
    (c.setData t df).maxPeriod = c.maxPeriod := rfl

theorem evict_old_maxPeriod (c : KlineCache) (now : Int) (t : String) :
    (c.evict_old now t).maxPeriod = c.maxPeriod := by
  unfold KlineCache.evict_old
  split
  · rfl
  · split
    · rfl
    · rfl

theorem evict_old_data_ne (c : KlineCache) (now : Int) (t s : String) (h : s ≠ t) :
    (c.evict_old now t).data s = c.data s := by
  unfold KlineCache.evict_old
  split
  · rfl
  · split
    · rfl
    · exact setData_data_ne _ _ _ _ h

theorem evict_old_data_self (c : KlineCache) (now : Int) (t : String) (df : List Row)
    (h : c.data t = some df) :
    (c.evict_old now t).data t =
      some (df.filter (fun r => now - c.maxPeriod ≤ r.ts)) := by
  unfold KlineCache.evict_old
  rw [h]
  by_cases hdf : df.isEmpty
  · rw [List.isEmpty_iff] at hdf
    subst hdf
    simpa using h
  · simp only [hdf]
    rw [if_neg (by simp [hdf])]
    exact setData_data_self _ _ _

theorem update_maxPeriod (c : KlineCache) (now : Int) (t : String) (b : Option (List Row)) :
    ((c.update now t b).2).maxPeriod = c.maxPeriod := by
  unfold KlineCache.update
  split
  · rfl
  · split
    · rfl
    · split
      · rw [evict_old_maxPeriod]; rfl
      · rw [evict_old_maxPeriod]; rfl

theorem update_data_ne (c : KlineCache) (now : Int) (t : String) (b : Option (List Row))
    (s : String) (h : s ≠ t) :
    ((c.update now t b).2).data s = c.data s := by
  unfold KlineCache.update
  split
  · rfl
  · split
    · rfl
    · split
      · rw [evict_old_data_ne _ _ _ _ h, setData_data_ne _ _ _ _ h]
      · rw [evict_old_data_ne _ _ _ _ h, setData_data_ne _ _ _ _ h]

theorem update_fst_nonempty (c : KlineCache) (now : Int) (t : String) (l : List Row)
    (hne : l ≠ []) :
    (c.update now t (some l)).1 = true := by
  obtain ⟨x, xs, rfl⟩ := List.exists_cons_of_ne_nil hne
  unfold KlineCache.update
  cases hex : c.data t <;> simp [hex]

theorem update_data_first (c : KlineCache) (now : Int) (t : String) (l : List Row)
    (hnone : c.data t = none) (hne : l ≠ []) :
    ((c.update now t (some l)).2).data t =
      some (l.filter (fun r => now - c.maxPeriod ≤ r.ts)) := by
  obtain ⟨x, xs, rfl⟩ := List.exists_cons_of_ne_nil hne
  unfold KlineCache.update
  simp only [hnone, List.isEmpty_cons, Bool.false_eq_true, if_false]
  rw [evict_old_data_self _ _ _ _ (setData_data_self _ _ _)]
  rfl

theorem update_data_merge (c : KlineCache) (now : Int) (t : String) (l existing : List Row)
    (hex : c.data t = some existing) (hne : l ≠ []) :
    ((c.update now t (some l)).2).data t =
      some ((List.insertionSort Row.le (mergeBatch existing l)).filter
        (fun r => now - c.maxPeriod ≤ r.ts)) := by
  obtain ⟨x, xs, rfl⟩ := List.exists_cons_of_ne_nil hne
  unfold KlineCache.update
  simp only [hex, List.isEmpty_cons, Bool.false_eq_true, if_false]
  rw [evict_old_data_self _ _ _ _ (setData_data_self _ _ _)]
  rfl

/-! ### Sortedness and duplicate-freeness through the merge pipeline -/

theorem upsertRow_map_ts_of_mem (df : List Row) (r : Row) (h : r.ts ∈ df.map Row.ts) :
    (upsertRow df r).map Row.ts = df.map Row.ts := by
  unfold upsertRow
  rw [if_pos h, List.map_map]
  apply List.map_congr_left
  intro x _
  by_cases hx : x.ts = r.ts <;> simp [hx, Row.ts]

theorem tsNodup_upsertRow (df : List Row) (r : Row) (h : TsNodup df) :
    TsNodup (upsertRow df r) := by
  unfold TsNodup at *
  by_cases hm : r.ts ∈ df.map Row.ts
  · rw [upsertRow_map_ts_of_mem df r hm]
    exact h
  · unfold upsertRow
    rw [if_neg hm, List.map_append]
    simp [List.nodup_append, h, hm]

theorem tsNodup_sort (df : List Row) (h : TsNodup df) :
    TsNodup (List.insertionSort Row.le df) :=
  (((List.perm_insertionSort Row.le df).symm).map Row.ts).nodup h

theorem tsNodup_filter (df : List Row) (p : Row → Bool) (h : TsNodup df) :
    TsNodup (df.filter p) :=
  h.sublist ((List.filter_sublist df).map Row.ts)

theorem dfOk_tsNodup (df : List Row) (h : DfOk df) : TsNodup df :=
  List.pairwise_map.mpr (h.imp fun hab => Int.ne_of_lt hab)

theorem dfOk_filter (df : List Row) (p : Row → Bool) (h : DfOk df) : DfOk (df.filter p) :=
  h.filter p

theorem dfOk_of_sorted_tsNodup (df : List Row) (hs : df.Sorted Row.le) (hn : TsNodup df) :
    DfOk df := by
  have h2 : df.Pairwise fun a b => a.ts ≠ b.ts := List.pairwise_map.mp hn
  exact (List.Pairwise.and hs h2).imp fun hab => lt_of_le_of_ne hab.1 hab.2

theorem dfOk_merge_result (existing l : List Row) (hn : TsNodup existing) (p : Row → Bool) :
    DfOk ((List.insertionSort Row.le (mergeBatch existing l)).filter p) := by
  have hnm : TsNodup (mergeBatch existing l) := by
    unfold mergeBatch
    split
    · exact tsNodup_upsertRow _ _ (tsNodup_upsertRow _ _ hn)
    · exact tsNodup_upsertRow _ _ hn
  exact dfOk_of_sorted_tsNodup _
    ((List.sorted_insertionSort Row.le (mergeBatch existing l)).filter p)
    (tsNodup_filter _ p (tsNodup_sort _ hnm))

/-! ### Invariant preservation by one `update` call -/

theorem cacheOk_update (c : KlineCache) (now : Int) (t : String) (b : Option (List Row))
    (hok : CacheOk c) (hfirst : c.data t = none → BatchOk b) :
    CacheOk ((c.update now t b).2) := by
  intro s df hdf
  by_cases hst : s = t
  · subst hst
    cases b with
    | none => exact hok s df hdf
    | some l =>
      by_cases hl : l = []
      · subst hl
        exact hok s df hdf
      · cases hex : c.data s with
        | none =>
          rw [update_data_first c now s l hex hl] at hdf
          obtain rfl := Option.some.inj hdf
          have hbOk : DfOk l := hfirst hex
          exact dfOk_filter _ _ hbOk
        | some existing =>
          rw [update_data_merge c now s l existing hex hl] at hdf
          obtain rfl := Option.some.inj hdf
          exact dfOk_merge_result existing l (dfOk_tsNodup _ (hok s existing hex)) _
  · rw [update_data_ne c now t b s hst] at hdf
    exact hok s df hdf

theorem update_retention (c : KlineCache) (now : Int) (t : String) (l : List Row)
    (df : List Row) (hne : l ≠ [])
    (hdf : ((c.update now t (some l)).2).data t = some df) :
    ∀ r ∈ df, now - c.maxPeriod ≤ r.ts := by
  cases hex : c.data t with
  | none =>
    rw [update_data_first c now t l hex hne] at hdf
    obtain rfl := Option.some.inj hdf
    intro r hr
    simpa using (List.mem_filter.mp hr).2
  | some existing =>
    rw [update_data_merge c now t l existing hex hne] at hdf
    obtain rfl := Option.some.inj hdf
    intro r hr
    simpa using (List.mem_filter.mp hr).2

/-! ### Sequences of calls -/

theorem runUpdates_append (c : KlineCache) (xs ys : List UpdCall) :
    runUpdates c (xs ++ ys) = runUpdates (runUpdates c xs) ys :=
  List.foldl_append _ _ _ _

theorem maxPeriod_stepCall (c : KlineCache) (p : UpdCall) :
    (stepCall c p).maxPeriod = c.maxPeriod :=
  update_maxPeriod _ _ _ _

theorem maxPeriod_runUpdates (c : KlineCache) (cs : List UpdCall) :
    (runUpdates c cs).maxPeriod = c.maxPeriod := by
  induction cs generalizing c with
  | nil => rfl
  | cons p ps ih =>
    show (runUpdates (stepCall c p) ps).maxPeriod = c.maxPeriod
    rw [ih, maxPeriod_stepCall]

theorem goodRun_append_parts (c : KlineCache) (xs ys : List UpdCall)
    (h : GoodRun c (xs ++ ys)) :
    GoodRun c xs ∧ GoodRun (runUpdates c xs) ys := by
  induction xs generalizing c with
  | nil => exact ⟨trivial, h⟩
  | cons p ps ih =>
    obtain ⟨h1, h2⟩ := h
    obtain ⟨h3, h4⟩ := ih (stepCall c p) h2
    exact ⟨⟨h1, h3⟩, h4⟩

theorem cacheOk_runUpdates (c : KlineCache) (cs : List UpdCall)
    (h0 : CacheOk c) (hg : GoodRun c cs) :
    CacheOk (runUpdates c cs) := by
  induction cs generalizing c with
  | nil => exact h0
  | cons p ps ih =>
    obtain ⟨h1, h2⟩ := hg
    exact ih (stepCall c p) (cacheOk_update c p.1 p.2.1 p.2.2 h0 h1) h2

theorem cacheOk_mk0 (p : Int) : CacheOk (KlineCache.mk0 p) := by
  intro t df h
  simp [KlineCache.mk0] at h

/-! ### Pointwise facts about `upsertRow` -/

theorem upsertRow_mem_eq (df : List Row) (r : Row) (h : r.ts ∈ df.map Row.ts) :
    upsertRow df r = df.map (fun x => if x.ts = r.ts then ⟨x.ts, r.vals⟩ else x) :=
  if_pos h

theorem upsertRow_not_mem_eq (df : List Row) (r : Row) (h : r.ts ∉ df.map Row.ts) :
    upsertRow df r = df ++ [r] :=
  if_neg h

/-- After upserting `r`, every row carrying `r`'s timestamp carries `r`'s
values (the fetch is authoritative). -/
theorem upsertRow_vals_at (df : List Row) (r : Row) :
    ∀ x ∈ upsertRow df r, x.ts = r.ts → x.vals = r.vals := by
  intro x hx hts
  unfold upsertRow at hx
  by_cases hm : r.ts ∈ df.map Row.ts
  · rw [if_pos hm] at hx
    obtain ⟨y, _, rfl⟩ := List.mem_map.mp hx
    by_cases hy : y.ts = r.ts
    · simp [hy]
    · rw [if_neg hy] at hts ⊢
      exact absurd hts hy
  · rw [if_neg hm] at hx
    rcases List.mem_append.mp hx with hx' | hx'
    · exact absurd (List.mem_map.mpr ⟨x, hx', hts⟩) hm
    · obtain rfl := List.mem_singleton.mp hx'
      rfl

/-- Rows with a different timestamp pass through `upsertRow` unchanged. -/
theorem upsertRow_mem_of_ne (df : List Row) (r : Row) :
    ∀ x ∈ upsertRow df r, x.ts ≠ r.ts → x ∈ df := by
  intro x hx hts
  unfold upsertRow at hx
  by_cases hm : r.ts ∈ df.map Row.ts
  · rw [if_pos hm] at hx
    obtain ⟨y, hy, rfl⟩ := List.mem_map.mp hx
    by_cases hyr : y.ts = r.ts
    · rw [if_pos hyr] at hts
      exact absurd hyr hts
    · rwa [if_neg hyr]
  · rw [if_neg hm] at hx
    rcases List.mem_append.mp hx with hx' | hx'
    · exact hx'
    · obtain rfl := List.mem_singleton.mp hx'
      exact absurd rfl hts

/-- The upserted timestamp is present afterwards. -/
theorem upsertRow_ts_mem (df : List Row) (r : Row) :
    r.ts ∈ (upsertRow df r).map Row.ts := by
  by_cases hm : r.ts ∈ df.map Row.ts
  · rwa [upsertRow_map_ts_of_mem df r hm]
  · rw [upsertRow_not_mem_eq df r hm]
    simp

/-- Timestamps already present survive an upsert. -/
theorem upsertRow_ts_mem_mono (df : List Row) (r : Row) (s : Int)
    (h : s ∈ df.map Row.ts) : s ∈ (upsertRow df r).map Row.ts := by
  by_cases hm : r.ts ∈ df.map Row.ts
  · rwa [upsertRow_map_ts_of_mem df r hm]
  · rw [upsertRow_not_mem_eq df r hm]
    simp [h]

/-- Upserting a row whose timestamp is present with exactly the stored
values is a no-op. -/
theorem upsertRow_eq_self (df : List Row) (r : Row)
    (hmem : r.ts ∈ df.map Row.ts)
    (hvals : ∀ x ∈ df, x.ts = r.ts → x.vals = r.vals) :
    upsertRow df r = df := by
  rw [upsertRow_mem_eq df r hmem]
  have h : ∀ x ∈ df, (if x.ts = r.ts then (⟨x.ts, r.vals⟩ : Row) else x) = x := by
    intro x hx
    by_cases hxr : x.ts = r.ts
    · rw [if_pos hxr]
      have := hvals x hx hxr
      cases x
      simp_all
    · rw [if_neg hxr]
  rw [List.map_congr_left h, List.map_id']

/-- `mergeBatch` on a two-row batch upserts the first (closed) row then
the second (open) row. -/
theorem mergeBatch_pair (existing : List Row) (a b : Row) :
    mergeBatch existing [a, b] = upsertRow (upsertRow existing a) b := by
  unfold mergeBatch
  rw [if_pos (by simp)]
  rfl

/-- Filtering by the retention window keeps a frame all of whose rows are
inside the window. -/
theorem filter_window_eq_self (df : List Row) (cutoff : Int)
    (h : ∀ r ∈ df, cutoff ≤ r.ts) :
    df.filter (fun r => cutoff ≤ r.ts) = df :=
  List.filter_eq_self.mpr fun r hr => decide_eq_true (h r hr)

/-- A timestamp inside the window survives the eviction filter. -/
theorem ts_mem_filter_window (df : List Row) (cutoff s : Int)
    (hs : s ∈ df.map Row.ts) (hp : cutoff ≤ s) :
    s ∈ (df.filter (fun r => cutoff ≤ r.ts)).map Row.ts := by
  obtain ⟨x, hx, rfl⟩ := List.mem_map.mp hs
  exact List.mem_map.mpr ⟨x, List.mem_filter.mpr ⟨hx, decide_eq_true hp⟩, rfl⟩

/-! ### Claim theorems -/

/-- **C6**: for every symbol and every cache state, `update` with an empty
batch returns `false` and returns the cache state itself, so the stored
state of every symbol is exactly unchanged (and, being a total function,
the call cannot raise). -/
theorem c6_empty_batch_noop (c : KlineCache) (now : Int) (t : String) :
    c.update now t (some []) = (false, c) := rfl

/-- **C10**: for every symbol and every cache state, `update` with `None`
in place of a batch returns `false`, leaves the state untouched, and
agrees exactly with the empty-batch call. -/
theorem c10_none_batch (c : KlineCache) (now : Int) (t : String) :
    c.update now t none = (false, c) ∧
      c.update now t none = c.update now t (some []) :=
  ⟨rfl, rfl⟩

/-- **C2** (code behaviour at the claim's failing input): on a fresh cache,
the first-ever two-record batch is stored in full (both records, ascending)
but the call returns `true`, where the claim — and the repository's own
test `test_first_load_returns_false` — require `false`. -/
theorem c2_first_load_returns_true :
    ((KlineCache.mk0 180).update 10 "X"
        (some [⟨1, ⟨1, 1, 1, 1, 1⟩⟩, ⟨2, ⟨2, 2, 2, 2, 2⟩⟩])).1 = true ∧
    ((KlineCache.mk0 180).update 10 "X"
        (some [⟨1, ⟨1, 1, 1, 1, 1⟩⟩, ⟨2, ⟨2, 2, 2, 2, 2⟩⟩])).2.data "X" =
      some [⟨1, ⟨1, 1, 1, 1, 1⟩⟩, ⟨2, ⟨2, 2, 2, 2, 2⟩⟩] := by
  constructor <;> decide

/-- **C9**: an iteration of the `run` loop body on which the elapsed time
since the last poll is strictly below the poll interval performs no fetch,
no `cache.update` call and no callback (the event list is empty) and
leaves the feed state — cache and `last_poll` included — unchanged;
equivalently, events can only arise on an iteration with
`now - last_poll ≥ poll_interval`. -/
theorem c9_poll_gating (fetch : String → List Row) (now : Int) (s : MDFeedState)
    (h : now - s.lastPoll < s.pollInterval) :
    MDFeed.runIter fetch now s = (s, []) := by
  unfold MDFeed.runIter
  rw [if_neg (not_le.mpr h)]

/-- Witness for `c9_poll_gating`: poll period 10, elapsed 5. -/
theorem c9_poll_gating_witness :
    MDFeed.runIter (fun _ => []) 5 ⟨["X"], KlineCache.mk0 180, 10, true, 0⟩ =
      (⟨["X"], KlineCache.mk0 180, 10, true, 0⟩, []) :=
  c9_poll_gating (fun _ => []) 5 ⟨["X"], KlineCache.mk0 180, 10, true, 0⟩ (by decide)

/-- **C5**: (i) eviction replaces a stored frame with exactly its
sub-frame of records at least `now - maxPeriod` old — records strictly
older are removed, all others kept; (ii) after every successful (non-empty
batch) `update` every stored record for the symbol is inside the window;
(iii) concretely, with a 30-unit window at `now = 100`, loading ages
{60, 20, 0} (timestamps 40, 80, 100) keeps exactly the {20, 0}-day
records. -/
theorem c5_eviction :
    (∀ (c : KlineCache) (now : Int) (t : String) (df : List Row),
        c.data t = some df →
        (c.evict_old now t).data t =
          some (df.filter (fun r => now - c.maxPeriod ≤ r.ts))) ∧
    (∀ (c : KlineCache) (now : Int) (t : String) (l df : List Row), l ≠ [] →
        ((c.update now t (some l)).2).data t = some df →
        ∀ r ∈ df, now - c.maxPeriod ≤ r.ts) ∧
    (((KlineCache.mk0 30).update 100 "X"
        (some [⟨40, ⟨1, 1, 1, 1, 1⟩⟩, ⟨80, ⟨2, 2, 2, 2, 2⟩⟩, ⟨100, ⟨3, 3, 3, 3, 3⟩⟩])).2.data "X" =
      some [⟨80, ⟨2, 2, 2, 2, 2⟩⟩, ⟨100, ⟨3, 3, 3, 3, 3⟩⟩]) := by
  refine ⟨fun c now t df h => evict_old_data_self c now t df h,
    fun c now t l df hne hdf => update_retention c now t l df hne hdf, ?_⟩
  decide

/-- Witness for `c5_eviction`: a stored record aged beyond a 30-unit
window is evicted, leaving the empty frame. -/
theorem c5_eviction_witness :
    (((KlineCache.mk0 30).setData "X" [⟨5, ⟨0, 0, 0, 0, 0⟩⟩]).evict_old 100 "X").data "X" =
      some [] := by
  have h := c5_eviction.1 ((KlineCache.mk0 30).setData "X" [⟨5, ⟨0, 0, 0, 0, 0⟩⟩])
    100 "X" [⟨5, ⟨0, 0, 0, 0, 0⟩⟩] (by decide)
  rw [h]
  decide

/-- **C1** (counterexample): a first-ever batch that is not sorted
ascending is stored verbatim by `update` — the first-load branch copies
the batch without sorting or dedup — so at the end of that call the
stored history is not sorted ascending. -/
theorem c1_counterexample :
    ((KlineCache.mk0 100).update 0 "X"
        (some [⟨1, ⟨0, 0, 0, 0, 0⟩⟩, ⟨0, ⟨0, 0, 0, 0, 0⟩⟩])).2.data "X" =
      some [⟨1, ⟨0, 0, 0, 0, 0⟩⟩, ⟨0, ⟨0, 0, 0, 0, 0⟩⟩] ∧
    ¬ DfOk [⟨1, ⟨0, 0, 0, 0, 0⟩⟩, ⟨0, ⟨0, 0, 0, 0, 0⟩⟩] := by
  constructor <;> decide

/-- **C1** (amended): along any sequence of `update` calls in which every
call that first loads its symbol passes a batch sorted ascending with
distinct timestamps (`GoodRun`), the stored history of the called symbol
at the end of each call is sorted ascending with no duplicate timestamps,
and — whenever that call carried a non-empty batch — every stored record's
timestamp is at least `now - maxPeriod` for that call's `now`. -/
theorem c1_invariant (c0 : KlineCache) (cs l1 l2 : List UpdCall)
    (now : Int) (t : String) (b : Option (List Row))
    (h0 : CacheOk c0) (hg : GoodRun c0 cs)
    (hsplit : cs = l1 ++ (now, t, b) :: l2) :
    (∀ df, (runUpdates c0 (l1 ++ [(now, t, b)])).data t = some df → DfOk df) ∧
    (∀ l, b = some l → l ≠ [] →
      ∀ df, (runUpdates c0 (l1 ++ [(now, t, b)])).data t = some df →
        ∀ r ∈ df, now - c0.maxPeriod ≤ r.ts) := by
  subst hsplit
  obtain ⟨hg1, hg2⟩ := goodRun_append_parts c0 l1 ((now, t, b) :: l2) hg
  obtain ⟨hhead, _⟩ := hg2
  have hokpre : CacheOk (runUpdates c0 l1) := cacheOk_runUpdates c0 l1 h0 hg1
  have hrw : runUpdates c0 (l1 ++ [(now, t, b)]) =
      ((runUpdates c0 l1).update now t b).2 := by
    rw [runUpdates_append]
    rfl
  constructor
  · intro df hdf
    rw [hrw] at hdf
    exact cacheOk_update (runUpdates c0 l1) now t b hokpre hhead t df hdf
  · intro l hb hlne df hdf r hr
    subst hb
    rw [hrw] at hdf
    have h := update_retention (runUpdates c0 l1) now t l df hlne hdf r hr
    rwa [maxPeriod_runUpdates] at h

/-- Witness for `c1_invariant`: a two-call run (baseline then re-poll) on
a fresh cache whose final stored history is sorted with no duplicates. -/
theorem c1_invariant_witness :
    DfOk [⟨5, ⟨1, 2, 3, 4, 5⟩⟩, ⟨6, ⟨2, 3, 4, 5, 6⟩⟩] :=
  (c1_invariant (KlineCache.mk0 100)
      [(0, "X", some [⟨5, ⟨1, 1, 1, 1, 1⟩⟩, ⟨6, ⟨2, 2, 2, 2, 2⟩⟩]),
       (1, "X", some [⟨5, ⟨1, 2, 3, 4, 5⟩⟩, ⟨6, ⟨2, 3, 4, 5, 6⟩⟩])]
      [(0, "X", some [⟨5, ⟨1, 1, 1, 1, 1⟩⟩, ⟨6, ⟨2, 2, 2, 2, 2⟩⟩])] []
      1 "X" (some [⟨5, ⟨1, 2, 3, 4, 5⟩⟩, ⟨6, ⟨2, 3, 4, 5, 6⟩⟩])
      (cacheOk_mk0 100)
      ⟨fun _ => show DfOk _ by decide, fun _ => show DfOk _ by decide, trivial⟩
      rfl).1
    [⟨5, ⟨1, 2, 3, 4, 5⟩⟩, ⟨6, ⟨2, 3, 4, 5, 6⟩⟩] (by decide)

/-- **C3**: with no prior history, a baseline `[t1, t2]` followed by a
poll `[t2, t3]` (timestamps ascending, all inside the retention window)
returns `true` on the second call and leaves exactly
`[t1, t2, t3]` ascending, `t2`'s values overwritten by the newer fetch. -/
theorem c3_close_detection (c0 : KlineCache) (s : String) (now0 now : Int)
    (t1 t2 t3 : Int) (v1 v2 v2' v3 : Vals)
    (hnone : c0.data s = none)
    (h12 : t1 < t2) (h23 : t2 < t3)
    (hw0 : now0 - c0.maxPeriod ≤ t1) (hw : now - c0.maxPeriod ≤ t1) :
    ((c0.update now0 s (some [⟨t1, v1⟩, ⟨t2, v2⟩])).2.update now s
        (some [⟨t2, v2'⟩, ⟨t3, v3⟩])).1 = true ∧
    ((c0.update now0 s (some [⟨t1, v1⟩, ⟨t2, v2⟩])).2.update now s
        (some [⟨t2, v2'⟩, ⟨t3, v3⟩])).2.data s =
      some [⟨t1, v1⟩, ⟨t2, v2'⟩, ⟨t3, v3⟩] := by
  have hne12 : t1 ≠ t2 := ne_of_lt h12
  have hmax : ((c0.update now0 s (some [⟨t1, v1⟩, ⟨t2, v2⟩])).2).maxPeriod = c0.maxPeriod :=
    update_maxPeriod _ _ _ _
  have hc1 : (c0.update now0 s (some [⟨t1, v1⟩, ⟨t2, v2⟩])).2.data s =
      some [⟨t1, v1⟩, ⟨t2, v2⟩] := by
    rw [update_data_first c0 now0 s _ hnone (by simp)]
    have hkeep : ([⟨t1, v1⟩, ⟨t2, v2⟩] : List Row).filter
        (fun r => now0 - c0.maxPeriod ≤ r.ts) = [⟨t1, v1⟩, ⟨t2, v2⟩] := by
      refine filter_window_eq_self _ _ ?_
      intro r hr
      rcases List.mem_cons.mp hr with rfl | hr'
      · exact hw0
      · obtain rfl := List.mem_singleton.mp hr'
        exact le_trans hw0 (le_of_lt h12)
    rw [hkeep]
  constructor
  · exact update_fst_nonempty _ _ _ _ (by simp)
  · rw [update_data_merge _ now s _ _ hc1 (by simp), mergeBatch_pair]
    have hu1 : upsertRow [⟨t1, v1⟩, ⟨t2, v2⟩] ⟨t2, v2'⟩ = [⟨t1, v1⟩, ⟨t2, v2'⟩] := by
      rw [upsertRow_mem_eq _ _ (by simp)]
      simp [hne12]
    have hu2 : upsertRow [⟨t1, v1⟩, ⟨t2, v2'⟩] ⟨t3, v3⟩ =
        [⟨t1, v1⟩, ⟨t2, v2'⟩, ⟨t3, v3⟩] := by
      rw [upsertRow_not_mem_eq _ _ ?_]
      · rfl
      · simp only [List.map_cons, List.map_nil, List.mem_cons, List.not_mem_nil]
        push_neg
        refine ⟨?_, ?_, ?_⟩ <;> simp <;> omega
    rw [hu1, hu2]
    have hsorted : List.Sorted Row.le [⟨t1, v1⟩, ⟨t2, v2'⟩, ⟨t3, v3⟩] := by
      simp only [List.sorted_cons, List.mem_cons, List.mem_singleton, Row.le]
      refine ⟨?_, ?_, ?_⟩
      · intro b hb
        rcases hb with rfl | hb'
        · exact le_of_lt h12
        · rcases hb' with rfl | hb''
          · exact le_of_lt (lt_trans h12 h23)
          · cases hb''
      · intro b hb
        rcases hb with rfl | hb'
        · exact le_of_lt h23
        · cases hb'
      · exact ⟨fun b hb => absurd hb (List.not_mem_nil b), List.sorted_nil⟩
    rw [hsorted.insertionSort_eq]
    simp only [hmax]
    rw [filter_window_eq_self _ _ ?_]
    intro r hr
    rcases List.mem_cons.mp hr with rfl | hr'
    · exact hw
    · rcases List.mem_cons.mp hr' with rfl | hr''
      · exact le_trans hw (le_of_lt h12)
      · obtain rfl := List.mem_singleton.mp hr''
        exact le_trans hw (le_of_lt (lt_trans h12 h23))

/-- Witness for `c3_close_detection`: baseline `[0, 1]` then poll `[1, 2]`
on a fresh 180-unit cache at `now = 2`. -/
theorem c3_close_detection_witness :
    (((KlineCache.mk0 180).update 2 "X"
        (some [⟨0, ⟨1, 1, 1, 1, 1⟩⟩, ⟨1, ⟨2, 2, 2, 2, 2⟩⟩])).2.update 2 "X"
        (some [⟨1, ⟨5, 5, 5, 5, 5⟩⟩, ⟨2, ⟨3, 3, 3, 3, 3⟩⟩])).1 = true ∧
    (((KlineCache.mk0 180).update 2 "X"
        (some [⟨0, ⟨1, 1, 1, 1, 1⟩⟩, ⟨1, ⟨2, 2, 2, 2, 2⟩⟩])).2.update 2 "X"
        (some [⟨1, ⟨5, 5, 5, 5, 5⟩⟩, ⟨2, ⟨3, 3, 3, 3, 3⟩⟩])).2.data "X" =
      some [⟨0, ⟨1, 1, 1, 1, 1⟩⟩, ⟨1, ⟨5, 5, 5, 5, 5⟩⟩, ⟨2, ⟨3, 3, 3, 3, 3⟩⟩] :=
  c3_close_detection (KlineCache.mk0 180) "X" 2 2 0 1 2
    ⟨1, 1, 1, 1, 1⟩ ⟨2, 2, 2, 2, 2⟩ ⟨5, 5, 5, 5, 5⟩ ⟨3, 3, 3, 3, 3⟩
    rfl (by decide) (by decide) (by decide) (by decide)

/-- **C4**: for a symbol with existing history, feeding the same
two-record batch twice in a row (records with distinct, in-window
timestamps, both calls at the same clock reading) leaves the stored
history after the second call identical to the history after the first,
and the second call still returns `true`. -/
theorem c4_repoll_idempotent (c : KlineCache) (s : String) (now : Int)
    (df : List Row) (a b : Row)
    (hdf : c.data s = some df)
    (hab : a.ts ≠ b.ts)
    (ha : now - c.maxPeriod ≤ a.ts) (hb : now - c.maxPeriod ≤ b.ts) :
    ((c.update now s (some [a, b])).2.update now s (some [a, b])).1 = true ∧
    ((c.update now s (some [a, b])).2.update now s (some [a, b])).2.data s =
      (c.update now s (some [a, b])).2.data s := by
  have hmax : ((c.update now s (some [a, b])).2).maxPeriod = c.maxPeriod :=
    update_maxPeriod _ _ _ _
  have h1 : (c.update now s (some [a, b])).2.data s =
      some ((List.insertionSort Row.le (upsertRow (upsertRow df a) b)).filter
        (fun r => now - c.maxPeriod ≤ r.ts)) := by
    rw [update_data_merge c now s _ _ hdf (by simp), mergeBatch_pair]
  set df1 := (List.insertionSort Row.le (upsertRow (upsertRow df a) b)).filter
      (fun r => now - c.maxPeriod ≤ r.ts) with hdf1
  have hmem_df1 : ∀ x ∈ df1, x ∈ upsertRow (upsertRow df a) b := by
    intro x hx
    exact (List.perm_insertionSort Row.le _).subset (List.mem_of_mem_filter hx)
  have hvals_b : ∀ x ∈ df1, x.ts = b.ts → x.vals = b.vals := fun x hx hts =>
    upsertRow_vals_at _ b x (hmem_df1 x hx) hts
  have hvals_a : ∀ x ∈ df1, x.ts = a.ts → x.vals = a.vals := by
    intro x hx hts
    have hxne : x.ts ≠ b.ts := by
      rw [hts]
      exact hab
    exact upsertRow_vals_at df a x
      (upsertRow_mem_of_ne _ b x (hmem_df1 x hx) hxne) hts
  have hts_a : a.ts ∈ df1.map Row.ts := by
    refine ts_mem_filter_window _ _ _ ?_ ha
    exact (((List.perm_insertionSort Row.le _).map Row.ts).mem_iff).mpr
      (upsertRow_ts_mem_mono _ b _ (upsertRow_ts_mem df a))
  have hts_b : b.ts ∈ df1.map Row.ts := by
    refine ts_mem_filter_window _ _ _ ?_ hb
    exact (((List.perm_insertionSort Row.le _).map Row.ts).mem_iff).mpr
      (upsertRow_ts_mem (upsertRow df a) b)
  have hsorted1 : List.Sorted Row.le df1 :=
    (List.sorted_insertionSort Row.le _).filter _
  have hwin1 : ∀ r ∈ df1, now - c.maxPeriod ≤ r.ts := by
    intro r hr
    simpa using (List.mem_filter.mp hr).2
  constructor
  · exact update_fst_nonempty _ _ _ _ (by simp)
  · rw [update_data_merge _ now s _ _ h1 (by simp), mergeBatch_pair, h1]
    simp only [hmax]
    rw [upsertRow_eq_self df1 a hts_a hvals_a, upsertRow_eq_self df1 b hts_b hvals_b,
      hsorted1.insertionSort_eq, filter_window_eq_self _ _ hwin1]

/-- Witness for `c4_repoll_idempotent`: a primed cache re-fed the batch
`[1, 2]` twice at `now = 2`. -/
theorem c4_repoll_idempotent_witness :
    ((((KlineCache.mk0 180).setData "X" [⟨0, ⟨1, 1, 1, 1, 1⟩⟩]).update 2 "X"
          (some [⟨1, ⟨4, 4, 4, 4, 4⟩⟩, ⟨2, ⟨5, 5, 5, 5, 5⟩⟩])).2.update 2 "X"
        (some [⟨1, ⟨4, 4, 4, 4, 4⟩⟩, ⟨2, ⟨5, 5, 5, 5, 5⟩⟩])).1 = true ∧
    ((((KlineCache.mk0 180).setData "X" [⟨0, ⟨1, 1, 1, 1, 1⟩⟩]).update 2 "X"
          (some [⟨1, ⟨4, 4, 4, 4, 4⟩⟩, ⟨2, ⟨5, 5, 5, 5, 5⟩⟩])).2.update 2 "X"
        (some [⟨1, ⟨4, 4, 4, 4, 4⟩⟩, ⟨2, ⟨5, 5, 5, 5, 5⟩⟩])).2.data "X" =
      (((KlineCache.mk0 180).setData "X" [⟨0, ⟨1, 1, 1, 1, 1⟩⟩]).update 2 "X"
          (some [⟨1, ⟨4, 4, 4, 4, 4⟩⟩, ⟨2, ⟨5, 5, 5, 5, 5⟩⟩])).2.data "X" :=
  c4_repoll_idempotent ((KlineCache.mk0 180).setData "X" [⟨0, ⟨1, 1, 1, 1, 1⟩⟩])
    "X" 2 [⟨0, ⟨1, 1, 1, 1, 1⟩⟩] ⟨1, ⟨4, 4, 4, 4, 4⟩⟩ ⟨2, ⟨5, 5, 5, 5, 5⟩⟩
    (by decide) (by decide) (by decide) (by decide)

/-- **C7** (counterexample): `get` is `return self._data.get(ticker)` — it
hands back the stored frame object itself, not a copy. With symbol "X"
stored at address 0 holding one row, the caller receives address 0 from
`get`; an in-place write through that reference changes the cache's own
stored view of "X", which the claim says cannot happen. -/
theorem c7_counterexample :
    PtrCache.get ⟨fun t => if t = "X" then some 0 else none⟩ "X" = some 0 ∧
    PtrCache.view ⟨fun t => if t = "X" then some 0 else none⟩
        ⟨fun a => if a = 0 then some [⟨1, ⟨1, 1, 1, 1, 1⟩⟩] else none⟩ "X" =
      some [⟨1, ⟨1, 1, 1, 1, 1⟩⟩] ∧
    PtrCache.view ⟨fun t => if t = "X" then some 0 else none⟩
        (PtrHeap.write ⟨fun a => if a = 0 then some [⟨1, ⟨1, 1, 1, 1, 1⟩⟩] else none⟩ 0
          [⟨1, ⟨9, 9, 9, 9, 9⟩⟩]) "X" =
      some [⟨1, ⟨9, 9, 9, 9, 9⟩⟩] ∧
    some [⟨1, ⟨9, 9, 9, 9, 9⟩⟩] ≠ (some [⟨1, ⟨1, 1, 1, 1, 1⟩⟩] : Option (List Row)) := by
  refine ⟨rfl, rfl, rfl, by decide⟩

/-- **C7** (amended): `get` returns a direct alias of the stored frame, so
any in-place mutation the caller performs through the returned reference
is reflected verbatim in the cache's stored view of that symbol. -/
theorem c7_get_aliases (c : PtrCache) (h : PtrHeap) (t : String) (addr : Nat)
    (df' : List Row) (hget : c.get t = some addr) :
    PtrCache.view c (h.write addr df') t = some df' := by
  unfold PtrCache.get at hget
  unfold PtrCache.view PtrHeap.write
  rw [hget]
  simp

/-- Witness for `c7_get_aliases`: the concrete one-symbol cache of the
counterexample scenario. -/
theorem c7_get_aliases_witness :
    PtrCache.view ⟨fun t => if t = "Y" then some 3 else none⟩
        (PtrHeap.write ⟨fun _ => none⟩ 3 [⟨7, ⟨2, 2, 2, 2, 2⟩⟩]) "Y" =
      some [⟨7, ⟨2, 2, 2, 2, 2⟩⟩] :=
  c7_get_aliases ⟨fun t => if t = "Y" then some 3 else none⟩ ⟨fun _ => none⟩
    "Y" 3 [⟨7, ⟨2, 2, 2, 2, 2⟩⟩] rfl

/-- **C8** (counterexample): with tracked symbols ["A", "B"] and a fetch
that raises for "A" and succeeds for "B", `initialize` propagates the
error — the facade reports no mapping at all (so no zero count for "A"),
and the fetch trace shows "B" was never fetched, hence never loaded. -/
theorem c8_counterexample :
    MDFeedFacade.initAll
        (fun t => if t = "A" then Except.error () else Except.ok [⟨0, ⟨1, 1, 1, 1, 1⟩⟩])
        0 ["A", "B"] = Except.error () ∧
    (MDFeed.initAll
        (fun t => if t = "A" then Except.error () else Except.ok [⟨0, ⟨1, 1, 1, 1, 1⟩⟩])
        0 ["A", "B"] (KlineCache.mk0 180)).1 = ["A"] := by
  constructor <;> rfl

/-- **C8** (amended): the per-ticker loop of `initialize` has no error
handling, so a fetch that raises for the first pending symbol aborts
initialization: that symbol is the last one fetched, the remaining
symbols are never fetched or loaded, and the facade's initialize
propagates the error instead of returning a per-symbol count mapping. -/
theorem c8_init_aborts (fetch : String → Except Unit (List Row)) (now : Int)
    (t : String) (rest : List String) (c : KlineCache) (e : Unit)
    (herr : fetch t = Except.error e) :
    MDFeed.initAll fetch now (t :: rest) c = ([t], Except.error e) ∧
    MDFeedFacade.initAll fetch now (t :: rest) = Except.error e := by
  constructor
  · unfold MDFeed.initAll
    rw [herr]
  · unfold MDFeedFacade.initAll
    unfold MDFeed.initAll
    rw [herr]

/-- Witness for `c8_init_aborts`: a fetch that always raises, applied to
symbols ["A", "B"]. -/
theorem c8_init_aborts_witness :
    MDFeed.initAll (fun _ => Except.error ()) 0 ["A", "B"] (KlineCache.mk0 180) =
      (["A"], Except.error ()) ∧
    MDFeedFacade.initAll (fun _ => Except.error ()) 0 ["A", "B"] = Except.error () :=
  c8_init_aborts (fun _ => Except.error ()) 0 "A" ["B"] (KlineCache.mk0 180) () rfl
